import Mathlib

/-!
Verification development for the EnzymeML workflow utilities.

The two source components are shallowly embedded over exact rationals:

* `utilities/modeler.py` — the `Modeler` class: gradient-based initial-guess
  heuristics, residual computation for least-squares fitting, fit dispatch,
  absorbance-to-concentration conversion and table preparation.
* `utilities/jsonhelper.py` — the `EnzymeMLDocJSON` accessor: the
  `getData` time-series lookup over the parsed document dictionaries.

NumPy arrays become `List ℚ` / `List (List ℚ)`; the external ODE integrator
(`scipy.integrate.odeint`) and the external optimizer (`lmfit.minimize`) are
taken as opaque function parameters, since both live outside this repository.
Fallible dictionary accesses (Python `KeyError`) become `Option` / `Except`.
-/

namespace Modeler

/-- Number of columns of a replicate matrix (`data.shape[1]` for the
rectangular NumPy array; on lists, the length of the first row). -/
def numCols (data : List (List ℚ)) : ℕ :=
  (data.headD []).length

/-- Column `j` of `np.mean(data, axis=0)`: the mean over rows of the
entries at index `j`. -/
def colMean (data : List (List ℚ)) (j : ℕ) : ℚ :=
  (data.map (fun row => row.getD j 0)).sum / (data.length : ℚ)

/-- The vector `np.mean(data, axis=0)` itself: one column mean per column. -/
def colMeans (data : List (List ℚ)) : List ℚ :=
  (List.range (numCols data)).map (colMean data)

/-- `np.max` over a list (the NumPy call requires a non-empty array; the
empty case is given the junk value 0 and is excluded by hypotheses). -/
def listMax : List ℚ → ℚ
  | [] => 0
  | x :: xs => xs.foldl max x

/-- `np.min` over a list, with the same convention as `listMax`. -/
def listMin : List ℚ → ℚ
  | [] => 0
  | x :: xs => xs.foldl min x

/-- First index at which `v` attains `np.max(v)`; this is
`np.where(v == np.max(v))[0][0]` from `Modeler.get_initial_Km`. -/
def idxOfMax (v : List ℚ) : ℕ :=
  v.findIdx (fun x => x = listMax v)

/-- `np.argmin`: first index at which the minimum is attained. -/
def argmin (w : List ℚ) : ℕ :=
  w.findIdx (fun x => x = listMin w)

/-- The inner loop of `Modeler._get_v`, walking the zipped `(t[j], data[i,j])`
pairs while carrying the running state `prev_value`, `prev_time`:

    if t[j] == 0: delta = prev_value - data[i,j]
    else:         delta = abs((prev_value - data[i,j]) / (t[j] - prev_time))
-/
def rowDeltasAux (prev_value prev_time : ℚ) : List (ℚ × ℚ) → List ℚ
  | [] => []
  | (tj, xj) :: rest =>
      let delta := if tj = 0 then prev_value - xj
                   else |(prev_value - xj) / (tj - prev_time)|
      delta :: rowDeltasAux xj tj rest

/-- One replicate row of `v_all` in `Modeler._get_v`: the walk starts with
the sentinel state `prev_value = data[i,0]`, `prev_time = 0.0`. -/
def rowDeltas (t row : List ℚ) : List ℚ :=
  rowDeltasAux (row.headD 0) 0 (t.zip row)

/-- `Modeler._get_v(t, data)`: per-row gradient walk, then `np.mean(v_all,
axis=0)`, one averaged gradient per time index. -/
def get_v (t : List ℚ) (data : List (List ℚ)) : List ℚ :=
  let v_all := data.map (rowDeltas t)
  (List.range (numCols data)).map (fun j => colMean v_all j)

/-- `Modeler.get_initial_vmax(t, data) = np.max(self._get_v(t, data))`. -/
def get_initial_vmax (t : List ℚ) (data : List (List ℚ)) : ℚ :=
  listMax (get_v t data)

/-- `Modeler.get_initial_bias(data) = np.mean(data, axis=0)[-1]`. -/
def get_initial_bias (data : List (List ℚ)) : ℚ :=
  (colMeans data).getD (numCols data - 1) 0

/-- `Modeler.get_initial_S0(data) = np.mean(data, axis=0)[0]`. -/
def get_initial_S0 (data : List (List ℚ)) : ℚ :=
  (colMeans data).getD 0 0

/-- The index `idx_max = np.where(v == np.max(v))[0][0]` of
`Modeler.get_initial_Km`, computed on `v = self._get_v(t, data)`. -/
def kmIdxMax (t : List ℚ) (data : List (List ℚ)) : ℕ :=
  idxOfMax (get_v t data)

/-- The offset `idx_Km = (np.abs(v[idx_max:] - np.max(v)/2)).argmin()` of
`Modeler.get_initial_Km`. -/
def kmIdxHalf (t : List ℚ) (data : List (List ℚ)) : ℕ :=
  argmin (((get_v t data).drop (kmIdxMax t data)).map
    (fun x => |x - listMax (get_v t data) / 2|))

/-- `Modeler.get_initial_Km(t, data)`:

    v = self._get_v(t, data)
    idx_max = np.where(v == np.max(v))[0][0]
    idx_Km = (np.abs(v[idx_max:] - np.max(v)/2)).argmin()
    km = np.mean(data, axis=0)[idx_max + idx_Km]
    bias = self.get_initial_bias(data)
    if km > bias: km = km - bias
-/
def get_initial_Km (t : List ℚ) (data : List (List ℚ)) : ℚ :=
  let km := (colMeans data).getD (kmIdxMax t data + kmIdxHalf t data) 0
  let bias := get_initial_bias data
  if km > bias then km - bias else km

/-- Index-wise previous value of the `_get_v` walk at position `j`: the
sentinel `data[i,0]` at `j = 0`, the preceding entry afterwards. -/
def prevVal (row : List ℚ) (j : ℕ) : ℚ :=
  if j = 0 then row.getD 0 0 else row.getD (j - 1) 0

/-- Index-wise previous time of the `_get_v` walk at position `j`: the
sentinel `0.0` at `j = 0`, the preceding time point afterwards. -/
def prevTimeIdx (t : List ℚ) (j : ℕ) : ℚ :=
  if j = 0 then 0 else t.getD (j - 1) 0

/-- The claimed closed form of one gradient entry: a plain difference when
`t[j] == 0`, otherwise the absolute difference quotient against the
previous value and time. -/
def deltaIdx (t row : List ℚ) (j : ℕ) : ℚ :=
  if t.getD j 0 = 0 then prevVal row j - row.getD j 0
  else |(prevVal row j - row.getD j 0) / (t.getD j 0 - prevTimeIdx t j)|

/-- The slice of an lmfit `Parameters` object that `Modeler` reads.  `S0` is
accessed unconditionally by both residual variants; `v0` and `bias` are
probed with `try ... except KeyError`, hence optional. -/
structure Params where
  S0 : ℚ
  v0 : Option ℚ := none
  bias : Option ℚ := none

/-- An ODE right-hand side `f(w, t, params)`, supplied by the caller. -/
def ODEFun : Type := List ℚ → ℚ → Params → List ℚ

/-- The type of the external integrator wrapped by `Modeler.solveODE`:
`odeint(f, w0, t, args=(params,))` returns one state vector per time point. -/
def Solver : Type := ODEFun → List ℚ → List ℚ → Params → List (List ℚ)

/-- The `try params['v0'] ... except KeyError` prelude shared by both
residual variants: the initial state `w0` and the comparison index `nW`. -/
def initState (params : Params) : List ℚ × ℕ :=
  match params.v0 with
  | some v => ([v, params.S0], 1)
  | none => ([params.S0], 0)

/-- The state index named by the spec: `S-index = 1` when a velocity state
`v0` is present, else `0`. -/
def sIdx (params : Params) : ℕ :=
  if params.v0.isSome then 1 else 0

/-- The initial state named by the spec: the pair `(v0, S0)` when `v0` is
present, `S0` alone otherwise. -/
def w0Spec (params : Params) : List ℚ :=
  if params.v0.isSome then [params.v0.getD 0, params.S0] else [params.S0]

/-- `Modeler._residual(params, t, data, f)`: for each replicate row the ODE
is solved afresh and `residual[i,:] = data[i,:] - model[:,nW]`; the matrix is
returned flattened row-major. -/
def residual (odeSolve : Solver) (params : Params) (t : List ℚ)
    (data : List (List ℚ)) (f : ODEFun) : List ℚ :=
  let ws := initState params
  (data.map (fun row =>
    let model := odeSolve f t ws.1 params
    let s_model := model.map (fun st => st.getD ws.2 0)
    (row.zip s_model).map (fun p => p.1 - p.2))).flatten

/-- `Modeler._residual_with_bias(params, t, data, f)`: as `residual` but the
modeled signal is shifted by `params['bias'].value` before differencing.
The unguarded `params['bias']` access raises `KeyError` when absent, hence
the `Option` result. -/
def residual_with_bias (odeSolve : Solver) (params : Params) (t : List ℚ)
    (data : List (List ℚ)) (f : ODEFun) : Option (List ℚ) :=
  match params.bias with
  | none => none
  | some b =>
      let ws := initState params
      some ((data.map (fun row =>
        let model := odeSolve f t ws.1 params
        let s_model := model.map (fun st => st.getD ws.2 0)
        let s_model_bias := s_model.map (fun x => x + b)
        (row.zip s_model_bias).map (fun p => p.1 - p.2))).flatten)

/-- Modelled from the spec (§4.2 design note): a reimplementation of the
residual that integrates the ODE once and broadcasts the subtraction over
all replicate rows, instead of re-solving per row. -/
def residual_broadcast (odeSolve : Solver) (params : Params) (t : List ℚ)
    (data : List (List ℚ)) (f : ODEFun) : List ℚ :=
  let ws := initState params
  let model := odeSolve f t ws.1 params
  let s_model := model.map (fun st => st.getD ws.2 0)
  (data.map (fun row => (row.zip s_model).map (fun p => p.1 - p.2))).flatten

/-- Modelled from the spec (§4.2 design note): the broadcast form of
`residual_with_bias`. -/
def residual_with_bias_broadcast (odeSolve : Solver) (params : Params)
    (t : List ℚ) (data : List (List ℚ)) (f : ODEFun) : Option (List ℚ) :=
  match params.bias with
  | none => none
  | some b =>
      let ws := initState params
      let model := odeSolve f t ws.1 params
      let s_model := model.map (fun st => st.getD ws.2 0)
      let s_model_bias := s_model.map (fun x => x + b)
      some ((data.map (fun row =>
        (row.zip s_model_bias).map (fun p => p.1 - p.2))).flatten)

/-- The type of a residual function as handed to the optimizer. -/
def ResidFn : Type := Params → List ℚ → List (List ℚ) → ODEFun → Option (List ℚ)

/-- `Modeler.fit_model(t, data, params, ode)`:

    try:
        b = params['bias'].value
        result = minimize(self._residual_with_bias, params, args=(t, data, ode), ...)
    except KeyError:
        result = minimize(self._residual, params, args=(t, data, ode), ...)

The external `lmfit.minimize` is an opaque parameter; the always-succeeding
plain residual is lifted into the common `Option`-valued signature. -/
def fit_model {R : Type} (minimize : ResidFn → Params → List ℚ → List (List ℚ) → ODEFun → R)
    (odeSolve : Solver) (t : List ℚ) (data : List (List ℚ)) (params : Params)
    (ode : ODEFun) : R :=
  match params.bias with
  | some _ => minimize (residual_with_bias odeSolve) params t data ode
  | none => minimize (fun p t d f => some (residual odeSolve p t d f)) params t data ode

/-- `Modeler.convert_to_conc(absorption)`: Lambert-Beer conversion with the
fixed constants `epsilon = 24.8`, `d = 1.`. -/
def convert_to_conc (absorption : ℚ) : ℚ :=
  let epsilon : ℚ := 24.8
  let d : ℚ := 1
  absorption / (epsilon * d) * 1000

/-- Python `round(value, 3)` on exact rationals: nearest thousandth. -/
def round3 (q : ℚ) : ℚ :=
  (round (q * 1000) : ℤ) / 1000

/-- A table cell: either the sentinel string marker for a missing
parameter, or a rounded numeric value. -/
inductive Cell where
  | dash : Cell
  | num : ℚ → Cell
deriving DecidableEq

/-- The fixed ordered row set of `Modeler.get_table_data`. -/
def tableRows : List String := ["S0", "bias", "vmax", "Km", "a"]

/-- The unit-annotated display row labels returned by `get_table_data`. -/
def tableRowLabels : List String :=
  ["S0 [mmol/L]", "bias [mmol/L]", "vmax [M/min]", "Km [mmol/L]", "a [1/min]"]

/-- One fit result as read by `get_table_data`: its
`item.params.valuesdict()` mapping, as an association list. -/
structure FitResult where
  params : List (String × ℚ)

/-- The cell `get_table_data` computes for one fit result and one row key:

    value = item.params.valuesdict().get(key)
    if value == None: append('-')
    else:
        if not (key == 'vmax' or key == 'a'): value = convert_to_conc(value)
        append(round(value, 3))
-/
def cellFor (item : FitResult) (key : String) : Cell :=
  match item.params.lookup key with
  | none => Cell.dash
  | some v =>
      if ¬ (key = "vmax" ∨ key = "a") then Cell.num (round3 (convert_to_conc v))
      else Cell.num (round3 v)

/-- `Modeler.get_table_data(results)`: one inner array per named fit result,
transposed into one matrix column per result, together with the column
labels (the result names) and the display row labels. -/
def get_table_data (results : List (String × FitResult)) :
    List (List Cell) × List String × List String :=
  let columns := results.map Prod.fst
  let table := results.map (fun kv => tableRows.map (cellFor kv.2))
  (table.transpose, columns, tableRowLabels)

/-- The concrete time vector of the spec scenario `t = [0, 1, 2, 3]`. -/
def exT : List ℚ := [0, 1, 2, 3]

/-- The concrete replicate matrix of the spec scenario
`data = [[0, 1, 2, 2], [0, 1.2, 1.8, 2.1]]`. -/
def exData : List (List ℚ) := [[0, 1, 2, 2], [0, 6/5, 9/5, 21/10]]

/-- A concrete solver used to instantiate theorems: it returns the initial
state unchanged at every time point (one state vector per time point). -/
def exSolve : Solver := fun _ t w0 _ => t.map (fun _ => w0)

/-- A concrete ODE right-hand side used to instantiate theorems. -/
def exF : ODEFun := fun w _ _ => w

/-- A concrete minimizer used to instantiate the fit dispatch: it simply
evaluates the residual function it is handed. -/
def exMin : ResidFn → Params → List ℚ → List (List ℚ) → ODEFun → Option (List ℚ) :=
  fun rf p t d f => rf p t d f

/-- A concrete parameter set carrying a bias entry. -/
def exParamsB : Params := { S0 := 1, v0 := none, bias := some 1 }

/-- The fit result of the spec scenario, carrying only `S0` and `vmax`. -/
def exFit : FitResult := ⟨[("S0", 1), ("vmax", 5)]⟩

end Modeler

namespace EnzymeMLDocJSON

/-- One entry of `rep['replicates']`: a time vector and a data row. -/
structure Replicate where
  time : List ℚ
  data : List ℚ

/-- One species entry inside a reaction role list. -/
structure SpeciesEntry where
  species : String
  replicates : List Replicate

/-- One reaction of `reactionDic`, with its three role lists; the source
accesses `reac['educts']`, `reac['products']`, `reac['modifiers']`. -/
structure Reaction where
  educts : List SpeciesEntry
  products : List SpeciesEntry
  modifiers : List SpeciesEntry

/-- The dictionaries of `EnzymeMLDocJSON` that `getData` reads:
`reactionDic` maps reaction id to reaction, `typeDic` maps species id to
the role string recorded for it. -/
structure Doc where
  reactionDic : List (String × Reaction)
  typeDic : List (String × String)

/-- The Python error a failed dictionary subscript raises. -/
inductive PyError where
  | keyError : PyError
deriving DecidableEq

/-- `reac[role]` for a role string: defined for the three role keys the
document stores in `typeDic`, a `KeyError` otherwise. -/
def roleEntries (r : Reaction) (role : String) : Option (List SpeciesEntry) :=
  if role = "educts" then some r.educts
  else if role = "products" then some r.products
  else if role = "modifiers" then some r.modifiers
  else none

/-- The body of the `getData` loop: for each entry of the role list whose
`species` matches, `time` is overwritten by and `data` extended with each
replicate; entries for other species are skipped. -/
def collectData (species : String) (entries : List SpeciesEntry) :
    List ℚ × List (List ℚ) :=
  entries.foldl (fun acc reactant =>
    if reactant.species = species then
      reactant.replicates.foldl (fun acc rep => (rep.time, acc.2 ++ [rep.data])) acc
    else acc) ([], [])

/-- `EnzymeMLDocJSON.getData(reaction, species)`:

    for reactant in self.reactionDic[reaction][self.typeDic[species]]:
        if reactant['species'] == species:
            for rep in reactant['replicates']:
                time = rep['time']
                data.append(rep['data'])
    return (np.array(time), np.array(data))

Each dictionary subscript can raise `KeyError`; the loop itself never
fails and returns empty arrays when nothing matches. -/
def getData (doc : Doc) (reaction species : String) :
    Except PyError (List ℚ × List (List ℚ)) :=
  match doc.reactionDic.lookup reaction with
  | none => Except.error PyError.keyError
  | some r =>
      match doc.typeDic.lookup species with
      | none => Except.error PyError.keyError
      | some role =>
          match roleEntries r role with
          | none => Except.error PyError.keyError
          | some entries => Except.ok (collectData species entries)

/-- A concrete reaction whose educt list mentions species `s1`. -/
def exReaction1 : Reaction := ⟨[⟨"s1", [⟨[0, 1], [1, 2]⟩]⟩], [], []⟩

/-- A concrete reaction mentioning no species at all. -/
def exReaction2 : Reaction := ⟨[], [], []⟩

/-- A concrete document: species `s1` appears (as an educt) only in
reaction `r1`; reaction `r2` exists but does not involve `s1`. -/
def exDoc : Doc :=
  ⟨[("r1", exReaction1), ("r2", exReaction2)], [("s1", "educts")]⟩

end EnzymeMLDocJSON

namespace Modeler

lemma le_foldl_max (xs : List ℚ) (a : ℚ) : a ≤ xs.foldl max a := by
  induction xs generalizing a with
  | nil => exact le_refl a
  | cons x xs ih => exact le_trans (le_max_left a x) (ih (max a x))

lemma mem_le_foldl_max {x : ℚ} {xs : List ℚ} (hx : x ∈ xs) (a : ℚ) :
    x ≤ xs.foldl max a := by
  induction xs generalizing a with
  | nil => cases hx
  | cons y ys ih =>
      rcases List.mem_cons.mp hx with h | h
      · subst h
        exact le_trans (le_max_right a x) (le_foldl_max ys (max a x))
      · exact ih h (max a y)

lemma foldl_max_cases (xs : List ℚ) (a : ℚ) :
    xs.foldl max a = a ∨ xs.foldl max a ∈ xs := by
  induction xs generalizing a with
  | nil => exact Or.inl rfl
  | cons x xs ih =>
      rcases ih (max a x) with h | h
      · rcases max_choice a x with hm | hm
        · exact Or.inl (by rw [List.foldl_cons, h, hm])
        · exact Or.inr (by rw [List.foldl_cons, h, hm]; exact List.mem_cons_self x xs)
      · exact Or.inr (List.mem_cons_of_mem x h)

lemma le_listMax {x : ℚ} {v : List ℚ} (hx : x ∈ v) : x ≤ listMax v := by
  cases v with
  | nil => cases hx
  | cons y ys =>
      rcases List.mem_cons.mp hx with h | h
      · subst h; exact le_foldl_max ys x
      · exact mem_le_foldl_max h y

lemma listMax_mem {v : List ℚ} (hv : v ≠ []) : listMax v ∈ v := by
  cases v with
  | nil => exact absurd rfl hv
  | cons y ys =>
      rcases foldl_max_cases ys y with h | h
      · have hy : listMax (y :: ys) = y := h
        rw [hy]; exact List.mem_cons_self y ys
      · exact List.mem_cons_of_mem y h

lemma foldl_min_le (xs : List ℚ) (a : ℚ) : xs.foldl min a ≤ a := by
  induction xs generalizing a with
  | nil => exact le_refl a
  | cons x xs ih => exact le_trans (ih (min a x)) (min_le_left a x)

lemma foldl_min_le_mem {x : ℚ} {xs : List ℚ} (hx : x ∈ xs) (a : ℚ) :
    xs.foldl min a ≤ x := by
  induction xs generalizing a with
  | nil => cases hx
  | cons y ys ih =>
      rcases List.mem_cons.mp hx with h | h
      · subst h
        exact le_trans (foldl_min_le ys (min a x)) (min_le_right a x)
      · exact ih h (min a y)

lemma foldl_min_cases (xs : List ℚ) (a : ℚ) :
    xs.foldl min a = a ∨ xs.foldl min a ∈ xs := by
  induction xs generalizing a with
  | nil => exact Or.inl rfl
  | cons x xs ih =>
      rcases ih (min a x) with h | h
      · rcases min_choice a x with hm | hm
        · exact Or.inl (by rw [List.foldl_cons, h, hm])
        · exact Or.inr (by rw [List.foldl_cons, h, hm]; exact List.mem_cons_self x xs)
      · exact Or.inr (List.mem_cons_of_mem x h)

lemma listMin_le {x : ℚ} {v : List ℚ} (hx : x ∈ v) : listMin v ≤ x := by
  cases v with
  | nil => cases hx
  | cons y ys =>
      rcases List.mem_cons.mp hx with h | h
      · subst h; exact foldl_min_le ys x
      · exact foldl_min_le_mem h y

lemma listMin_mem {v : List ℚ} (hv : v ≠ []) : listMin v ∈ v := by
  cases v with
  | nil => exact absurd rfl hv
  | cons y ys =>
      rcases foldl_min_cases ys y with h | h
      · have hy : listMin (y :: ys) = y := h
        rw [hy]; exact List.mem_cons_self y ys
      · exact List.mem_cons_of_mem y h

lemma idxOfMax_lt_length {v : List ℚ} (hv : v ≠ []) : idxOfMax v < v.length :=
  List.findIdx_lt_length_of_exists ⟨listMax v, listMax_mem hv, by simp⟩

lemma getD_idxOfMax {v : List ℚ} (hv : v ≠ []) :
    v.getD (idxOfMax v) 0 = listMax v := by
  rw [List.getD_eq_getElem v 0 (idxOfMax_lt_length hv)]
  exact of_decide_eq_true (@List.findIdx_getElem _ _ _ (idxOfMax_lt_length hv))

lemma getD_lt_idxOfMax {v : List ℚ} {k : ℕ} (hk : k < idxOfMax v) :
    v.getD k 0 ≠ listMax v := by
  have hlen : k < v.length :=
    lt_of_lt_of_le hk (@List.findIdx_le_length _ (fun x => x = listMax v) v)
  rw [List.getD_eq_getElem v 0 hlen]
  exact of_decide_eq_false (List.not_of_lt_findIdx hk)

lemma argmin_lt_length {w : List ℚ} (hw : w ≠ []) : argmin w < w.length :=
  List.findIdx_lt_length_of_exists ⟨listMin w, listMin_mem hw, by simp⟩

lemma getD_argmin {w : List ℚ} (hw : w ≠ []) :
    w.getD (argmin w) 0 = listMin w := by
  rw [List.getD_eq_getElem w 0 (argmin_lt_length hw)]
  exact of_decide_eq_true (@List.findIdx_getElem _ _ _ (argmin_lt_length hw))

lemma rowDeltasAux_length (pv pt : ℚ) (ps : List (ℚ × ℚ)) :
    (rowDeltasAux pv pt ps).length = ps.length := by
  induction ps generalizing pv pt with
  | nil => rfl
  | cons q rest ih => simpa [rowDeltasAux] using ih q.2 q.1

lemma rowDeltasAux_getD (ps : List (ℚ × ℚ)) :
    ∀ (pv pt : ℚ) (j : ℕ), j < ps.length →
      (rowDeltasAux pv pt ps).getD j 0 =
        (if (ps.getD j (0, 0)).1 = 0 then
           (if j = 0 then pv else (ps.getD (j - 1) (0, 0)).2) - (ps.getD j (0, 0)).2
         else
           |((if j = 0 then pv else (ps.getD (j - 1) (0, 0)).2) - (ps.getD j (0, 0)).2) /
             ((ps.getD j (0, 0)).1 - (if j = 0 then pt else (ps.getD (j - 1) (0, 0)).1))|) := by
  induction ps with
  | nil => intro pv pt j hj; cases hj
  | cons q rest ih =>
      intro pv pt j hj
      match j with
      | 0 => cases q with | mk tj xj => simp [rowDeltasAux]
      | Nat.succ k =>
          cases q with
          | mk tj xj =>
              have hk : k < rest.length := by
                simpa [List.length_cons, Nat.succ_lt_succ_iff] using hj
              have := ih xj tj k hk
              simp only [rowDeltasAux, List.getD_cons_succ]
              rw [this]
              match k with
              | 0 => simp
              | Nat.succ m => simp

lemma headD_eq_getD (row : List ℚ) : row.headD 0 = row.getD 0 0 := by
  cases row <;> rfl

lemma zip_getD {t row : List ℚ} {j : ℕ} (ht : j < t.length) (hr : j < row.length) :
    (t.zip row).getD j (0, 0) = (t.getD j 0, row.getD j 0) := by
  have hz : j < (t.zip row).length := by
    rw [List.length_zip]; exact lt_min ht hr
  rw [List.getD_eq_getElem _ _ hz, List.getD_eq_getElem _ _ ht,
    List.getD_eq_getElem _ _ hr, List.getElem_zip]

lemma rowDeltas_getD {t row : List ℚ} (h : row.length = t.length) {j : ℕ}
    (hj : j < t.length) :
    (rowDeltas t row).getD j 0 = deltaIdx t row j := by
  have hz : (t.zip row).length = t.length := by
    rw [List.length_zip, h, min_self]
  have hjz : j < (t.zip row).length := by rw [hz]; exact hj
  have hjr : j < row.length := by rw [h]; exact hj
  rw [rowDeltas, rowDeltasAux_getD (t.zip row) (row.headD 0) 0 j hjz]
  rw [zip_getD hj hjr]
  match j with
  | 0 =>
      cases row with
      | nil => exact absurd hjr (lt_irrefl 0)
      | cons x xs => simp [deltaIdx, prevVal, prevTimeIdx]
  | Nat.succ k =>
      have hkt : k < t.length := Nat.lt_of_succ_lt hj
      have hkr : k < row.length := Nat.lt_of_succ_lt hjr
      simp only [Nat.succ_sub_one]
      rw [zip_getD hkt hkr]
      simp [deltaIdx, prevVal, prevTimeIdx]

lemma get_v_length (t : List ℚ) (data : List (List ℚ)) :
    (get_v t data).length = numCols data := by
  simp [get_v]

lemma lt_numCols_tlen {t : List ℚ} {data : List (List ℚ)}
    (halign : ∀ row ∈ data, row.length = t.length) {j : ℕ}
    (hj : j < numCols data) : j < t.length := by
  cases data with
  | nil => simp [numCols] at hj
  | cons r0 rest =>
      have h0 : r0.length = t.length := halign r0 (List.mem_cons_self r0 rest)
      have hc : numCols (r0 :: rest) = t.length := by simpa [numCols] using h0
      rwa [hc] at hj

lemma get_v_getD {t : List ℚ} {data : List (List ℚ)}
    (halign : ∀ row ∈ data, row.length = t.length) {j : ℕ}
    (hj : j < numCols data) :
    (get_v t data).getD j 0
      = (data.map (fun row => deltaIdx t row j)).sum / (data.length : ℚ) := by
  have hjm : j < ((List.range (numCols data)).map
      (fun j => colMean (data.map (rowDeltas t)) j)).length := by
    rwa [List.length_map, List.length_range]
  rw [get_v, List.getD_eq_getElem _ _ hjm, List.getElem_map, List.getElem_range]
  have hjt : j < t.length := lt_numCols_tlen halign hj
  have hrows : (data.map (rowDeltas t)).map (fun w => w.getD j 0)
      = data.map (fun row => deltaIdx t row j) := by
    rw [List.map_map]
    exact List.map_congr_left (fun row hrow =>
      rowDeltas_getD (halign row hrow) hjt)
  rw [colMean, hrows, List.length_map]

lemma deltaIdx_zero (t row : List ℚ) : deltaIdx t row 0 = 0 := by
  simp [deltaIdx, prevVal, prevTimeIdx]

/-- C1: for every non-negative, strictly increasing time vector `t` and
replicate matrix aligned with it, each entry of the averaged gradient
curve returned by `_get_v` is the replicate mean of per-row deltas: the
plain (non-rate) difference `prev_value - data[i][j]` whenever
`t[j] == 0`, and the absolute rate
`|(prev_value - data[i][j]) / (t[j] - prev_time)|` whenever `t[j]` is
nonzero, where the walk starts from the sentinel `prev_value = data[i][0]`
and `prev_time = 0`; whenever the rate branch is taken its denominator is
nonzero, so no division by zero ever occurs. -/
theorem get_v_spec (t : List ℚ) (data : List (List ℚ))
    (ht0 : ∀ j, j < t.length → 0 ≤ t.getD j 0)
    (hinc : ∀ j, j + 1 < t.length → t.getD j 0 < t.getD (j + 1) 0)
    (halign : ∀ row ∈ data, row.length = t.length) :
    ∀ j, j < numCols data →
      (get_v t data).getD j 0
          = (data.map (fun row => deltaIdx t row j)).sum / (data.length : ℚ)
        ∧ (t.getD j 0 ≠ 0 → t.getD j 0 - prevTimeIdx t j ≠ 0) := by
  intro j hj
  refine ⟨get_v_getD halign hj, ?_⟩
  intro ht
  have hjt : j < t.length := lt_numCols_tlen halign hj
  match j with
  | 0 =>
      rw [prevTimeIdx, if_pos rfl, sub_zero]
      exact ht
  | Nat.succ k =>
      rw [prevTimeIdx, if_neg (Nat.succ_ne_zero k)]
      have hlt : t.getD k 0 < t.getD (k + 1) 0 := hinc k hjt
      have : t.getD k 0 < t.getD (Nat.succ k) 0 := hlt
      exact sub_ne_zero.mpr (ne_of_gt (by simpa using hlt))

lemma exT_inc : ∀ j, j + 1 < exT.length → exT.getD j 0 < exT.getD (j + 1) 0 := by
  intro j hj
  have hj3 : j < 3 := by simp [exT] at hj; omega
  interval_cases j <;> decide

/-- C1 witness at the spec scenario, entry `j = 1`. -/
theorem get_v_spec_witness :
    (get_v exT exData).getD 1 0
        = ((exData.map (fun row => deltaIdx exT row 1)).sum / (exData.length : ℚ))
      ∧ exT.getD 1 0 - prevTimeIdx exT 1 ≠ 0 :=
  ⟨(get_v_spec exT exData (by decide) exT_inc (by decide) 1 (by decide)).1,
   (get_v_spec exT exData (by decide) exT_inc (by decide) 1 (by decide)).2
     (by decide)⟩

/-- C10: for a non-negative, strictly increasing time vector and a
non-empty aligned replicate matrix, the first entry of the averaged
gradient curve is exactly 0, every later entry is non-negative, and hence
`get_initial_vmax` is non-negative. -/
theorem get_v_nonneg_vmax (t : List ℚ) (data : List (List ℚ))
    (ht0 : ∀ j, j < t.length → 0 ≤ t.getD j 0)
    (hinc : ∀ j, j + 1 < t.length → t.getD j 0 < t.getD (j + 1) 0)
    (halign : ∀ row ∈ data, row.length = t.length)
    (hne : data ≠ []) :
    (get_v t data).getD 0 0 = 0
    ∧ (∀ j, 0 < j → j < numCols data → 0 ≤ (get_v t data).getD j 0)
    ∧ 0 ≤ get_initial_vmax t data := by
  have h1 : (get_v t data).getD 0 0 = 0 := by
    by_cases h0 : 0 < numCols data
    · rw [get_v_getD halign h0]
      have hz : data.map (fun row => deltaIdx t row 0) = data.map (fun _ => (0 : ℚ)) :=
        List.map_congr_left (fun row _ => deltaIdx_zero t row)
      rw [hz]
      simp
    · have hlen : (get_v t data).length ≤ 0 := by
        rw [get_v_length]; omega
      rw [List.getD_eq_default _ _ hlen]
  have h2 : ∀ j, 0 < j → j < numCols data → 0 ≤ (get_v t data).getD j 0 := by
    intro j hj0 hj
    rw [get_v_getD halign hj]
    have hjt : j < t.length := lt_numCols_tlen halign hj
    apply div_nonneg _ (Nat.cast_nonneg data.length)
    apply List.sum_nonneg
    intro x hx
    obtain ⟨row, hrow, rfl⟩ := List.mem_map.mp hx
    have htj : t.getD j 0 ≠ 0 := by
      match j, hj0 with
      | Nat.succ k, _ =>
          have hk0 : 0 ≤ t.getD k 0 := ht0 k (Nat.lt_of_succ_lt hjt)
          have hlt : t.getD k 0 < t.getD (k + 1) 0 := hinc k hjt
          have : (0 : ℚ) < t.getD (k + 1) 0 := lt_of_le_of_lt hk0 hlt
          exact ne_of_gt (by simpa using this)
    rw [deltaIdx, if_neg htj]
    exact abs_nonneg _
  refine ⟨h1, h2, ?_⟩
  cases hv : get_v t data with
  | nil => simp [get_initial_vmax, hv, listMax]
  | cons v0 rest =>
      have hv0 : v0 = 0 := by
        rw [hv] at h1
        simpa using h1
      rw [get_initial_vmax, hv, listMax]
      exact hv0 ▸ le_foldl_max rest v0

/-- C10 witness at the spec scenario. -/
theorem get_v_nonneg_vmax_witness :
    (get_v exT exData).getD 0 0 = 0
    ∧ 0 ≤ (get_v exT exData).getD 1 0
    ∧ 0 ≤ get_initial_vmax exT exData :=
  ⟨(get_v_nonneg_vmax exT exData (by decide) exT_inc (by decide) (by decide)).1,
   (get_v_nonneg_vmax exT exData (by decide) exT_inc (by decide) (by decide)).2.1
     1 (by decide) (by decide),
   (get_v_nonneg_vmax exT exData (by decide) exT_inc (by decide) (by decide)).2.2⟩

/-- C9: `get_initial_S0` equals exactly the column mean of the data at
index 0 and `get_initial_bias` equals exactly the column mean at the last
index; on the spec scenario they evaluate to `0` and `2.05`. -/
theorem initial_S0_bias_spec :
    (∀ data : List (List ℚ), 0 < numCols data →
        get_initial_S0 data = colMean data 0
        ∧ get_initial_bias data = colMean data (numCols data - 1))
    ∧ get_initial_S0 exData = 0 ∧ get_initial_bias exData = 41 / 20 := by
  have hgen : ∀ data : List (List ℚ), 0 < numCols data →
      get_initial_S0 data = colMean data 0
      ∧ get_initial_bias data = colMean data (numCols data - 1) := by
    intro data h0
    constructor
    · rw [get_initial_S0, colMeans]
      have hm : (0 : ℕ) < ((List.range (numCols data)).map (colMean data)).length := by
        rwa [List.length_map, List.length_range]
      rw [List.getD_eq_getElem _ _ hm, List.getElem_map, List.getElem_range]
    · rw [get_initial_bias, colMeans]
      have hm : numCols data - 1 < ((List.range (numCols data)).map (colMean data)).length := by
        rw [List.length_map, List.length_range]; omega
      rw [List.getD_eq_getElem _ _ hm, List.getElem_map, List.getElem_range]
  refine ⟨hgen, ?_, ?_⟩
  · rw [(hgen exData (by decide)).1]
    norm_num [colMean, exData]
  · rw [(hgen exData (by decide)).2]
    norm_num [colMean, numCols, exData]

/-- C9 witness at the spec scenario matrix. -/
theorem initial_S0_bias_spec_witness :
    get_initial_S0 exData = colMean exData 0
    ∧ get_initial_bias exData = colMean exData (numCols exData - 1) :=
  initial_S0_bias_spec.1 exData (by decide)

/-- C8: `convert_to_conc` is the fixed linear map
`value / (24.8 * 1) * 1000` with no per-call configuration, and it inverts
the map `c * epsilon * d / 1000` exactly over the rationals. -/
theorem convert_to_conc_spec :
    (∀ a : ℚ, convert_to_conc a = a / (24.8 * 1) * 1000)
    ∧ ∀ c : ℚ, convert_to_conc (c * 24.8 * 1 / 1000) = c := by
  constructor
  · intro a; rfl
  · intro c
    rw [convert_to_conc]
    norm_num
    ring

/-- C5: for both residual variants, the per-replicate recomputation of the
ODE solution yields exactly the same flattened residual vector as solving
once and broadcasting the subtraction over all replicate rows. -/
theorem residual_recompute_broadcast_equiv :
    (∀ (odeSolve : Solver) (params : Params) (t : List ℚ)
        (data : List (List ℚ)) (f : ODEFun),
        residual odeSolve params t data f
          = residual_broadcast odeSolve params t data f)
    ∧ ∀ (odeSolve : Solver) (params : Params) (t : List ℚ)
        (data : List (List ℚ)) (f : ODEFun),
        residual_with_bias odeSolve params t data f
          = residual_with_bias_broadcast odeSolve params t data f := by
  constructor
  · intro odeSolve params t data f; rfl
  · intro odeSolve params t data f
    rcases params with ⟨s0, v0, b⟩
    cases b <;> rfl

/-- C3: `fit_model` hands the bias-aware residual function to the
minimizer exactly when `params` carries a `bias` entry and the plain one
exactly when it does not; the two conditions exclude each other, so the
two residual paths are never both exercised for one call. -/
theorem fit_model_dispatch {R : Type}
    (minimize : ResidFn → Params → List ℚ → List (List ℚ) → ODEFun → R)
    (odeSolve : Solver) (t : List ℚ) (data : List (List ℚ)) (params : Params)
    (ode : ODEFun) :
    (params.bias.isSome →
        fit_model minimize odeSolve t data params ode
          = minimize (residual_with_bias odeSolve) params t data ode)
    ∧ (params.bias = none →
        fit_model minimize odeSolve t data params ode
          = minimize (fun p t d f => some (residual odeSolve p t d f)) params t data ode)
    ∧ (params.bias.isSome ↔ ¬ params.bias = none) := by
  rcases params with ⟨s0, v0, b⟩
  cases b <;> simp [fit_model]

/-- C3 witness: with a concrete minimizer and a parameter set carrying a
bias entry, the bias-aware residual function is the one handed over. -/
theorem fit_model_dispatch_witness :
    fit_model exMin exSolve exT exData exParamsB exF
      = exMin (residual_with_bias exSolve) exParamsB exT exData exF :=
  (fit_model_dispatch exMin exSolve exT exData exParamsB exF).1 (by decide)

lemma initState_eq (params : Params) :
    initState params = (w0Spec params, sIdx params) := by
  rcases params with ⟨s0, v0, b⟩
  cases v0 <;> rfl

lemma zip_sub_getD (row s : List ℚ) (h : s.length = row.length) :
    (row.zip s).map (fun p => p.1 - p.2)
      = (List.range row.length).map (fun j => row.getD j 0 - s.getD j 0) := by
  apply List.ext_getElem
  · rw [List.length_map, List.length_map, List.length_zip, List.length_range,
      h, min_self]
  · intro n h1 h2
    rw [List.getElem_map, List.getElem_map, List.getElem_zip, List.getElem_range]
    have hn : n < (row.zip s).length := by
      have := h1
      rwa [List.length_map] at this
    have hnr : n < row.length := by
      rw [List.length_zip, h, min_self] at hn
      exact hn
    have hns : n < s.length := by rw [h]; exact hnr
    rw [List.getD_eq_getElem _ _ hnr, List.getD_eq_getElem _ _ hns]

lemma map_getD_getD (model : List (List ℚ)) (n j : ℕ) (hj : j < model.length) :
    (model.map (fun st => st.getD n 0)).getD j 0 = (model.getD j []).getD n 0 := by
  have hjm : j < (model.map (fun st => st.getD n 0)).length := by
    rwa [List.length_map]
  rw [List.getD_eq_getElem _ _ hjm, List.getElem_map, List.getD_eq_getElem _ _ hj]

lemma map_add_getD (s : List ℚ) (b : ℚ) (j : ℕ) (hj : j < s.length) :
    (s.map (fun x => x + b)).getD j 0 = s.getD j 0 + b := by
  have hjm : j < (s.map (fun x => x + b)).length := by rwa [List.length_map]
  rw [List.getD_eq_getElem _ _ hjm, List.getElem_map, List.getD_eq_getElem _ _ hj]

/-- C2: the plain residual is the row-major flattening of
`data[i][j] - model[j][S-index]` and the bias variant is the row-major
flattening of `data[i][j] - (model[j][S-index] + bias)`, where the model
is the ODE solution started from the pair `(v0, S0)` with `S-index = 1`
when `params` carries a `v0` entry, and from `S0` alone with
`S-index = 0` otherwise. -/
theorem residual_formula (odeSolve : Solver) (params : Params) (t : List ℚ)
    (data : List (List ℚ)) (f : ODEFun) (b : ℚ)
    (hmodel : ∀ w0, (odeSolve f t w0 params).length = t.length)
    (halign : ∀ row ∈ data, row.length = t.length)
    (hb : params.bias = some b) :
    residual odeSolve params t data f
      = (data.map (fun row => (List.range row.length).map (fun j =>
          row.getD j 0
            - ((odeSolve f t (w0Spec params) params).getD j []).getD (sIdx params) 0))).flatten
    ∧ residual_with_bias odeSolve params t data f
      = some ((data.map (fun row => (List.range row.length).map (fun j =>
          row.getD j 0
            - (((odeSolve f t (w0Spec params) params).getD j []).getD (sIdx params) 0 + b)))).flatten) := by
  have hmlen : (odeSolve f t (w0Spec params) params).length = t.length :=
    hmodel (w0Spec params)
  constructor
  · simp only [residual, initState_eq]
    apply congrArg List.flatten
    apply List.map_congr_left
    intro row hrow
    have hslen : ((odeSolve f t (w0Spec params) params).map
        (fun st => st.getD (sIdx params) 0)).length = row.length := by
      rw [List.length_map, hmlen, halign row hrow]
    rw [zip_sub_getD row _ hslen]
    apply List.map_congr_left
    intro j hj
    have hjr : j < row.length := List.mem_range.mp hj
    have hjm : j < (odeSolve f t (w0Spec params) params).length := by
      rw [hmlen, ← halign row hrow]
      exact hjr
    rw [map_getD_getD _ _ _ hjm]
  · simp only [residual_with_bias, hb, initState_eq]
    apply congrArg some
    apply congrArg List.flatten
    apply List.map_congr_left
    intro row hrow
    have hslen2 : (((odeSolve f t (w0Spec params) params).map
        (fun st => st.getD (sIdx params) 0)).map (fun x => x + b)).length
          = row.length := by
      rw [List.length_map, List.length_map, hmlen, halign row hrow]
    rw [zip_sub_getD row _ hslen2]
    apply List.map_congr_left
    intro j hj
    have hjr : j < row.length := List.mem_range.mp hj
    have hjm : j < (odeSolve f t (w0Spec params) params).length := by
      rw [hmlen, ← halign row hrow]
      exact hjr
    have hjs : j < ((odeSolve f t (w0Spec params) params).map
        (fun st => st.getD (sIdx params) 0)).length := by
      rwa [List.length_map]
    rw [map_add_getD _ _ _ hjs, map_getD_getD _ _ _ hjm]

/-- C2 witness: both residual variants at a concrete solver, parameter
set with bias 1, and the spec scenario data. -/
theorem residual_formula_witness :
    residual exSolve exParamsB exT exData exF
      = (exData.map (fun row => (List.range row.length).map (fun j =>
          row.getD j 0
            - ((exSolve exF exT (w0Spec exParamsB) exParamsB).getD j []).getD (sIdx exParamsB) 0))).flatten
    ∧ residual_with_bias exSolve exParamsB exT exData exF
      = some ((exData.map (fun row => (List.range row.length).map (fun j =>
          row.getD j 0
            - (((exSolve exF exT (w0Spec exParamsB) exParamsB).getD j []).getD (sIdx exParamsB) 0 + 1)))).flatten) :=
  residual_formula exSolve exParamsB exT exData exF 1
    (fun w0 => by simp [exSolve]) (by decide) rfl

/-- C4: `get_initial_Km` takes the first index attaining the maximum of
the averaged gradient curve, from it on the position whose gradient is
closest to half the maximum, reads the column-mean concentration at the
sum of the two indices, and subtracts the bias estimate exactly when that
concentration strictly exceeds the bias, so the subtraction never makes
the returned Km negative. -/
theorem get_initial_Km_spec (t : List ℚ) (data : List (List ℚ))
    (halign : ∀ row ∈ data, row.length = t.length)
    (hne : data ≠ []) (htne : t ≠ []) :
    (kmIdxMax t data < (get_v t data).length
      ∧ (get_v t data).getD (kmIdxMax t data) 0 = listMax (get_v t data)
      ∧ (∀ k, k < kmIdxMax t data →
          (get_v t data).getD k 0 ≠ listMax (get_v t data)))
    ∧ (kmIdxMax t data + kmIdxHalf t data < (get_v t data).length
      ∧ ∀ k, kmIdxMax t data ≤ k → k < (get_v t data).length →
          |(get_v t data).getD (kmIdxMax t data + kmIdxHalf t data) 0
              - listMax (get_v t data) / 2|
            ≤ |(get_v t data).getD k 0 - listMax (get_v t data) / 2|)
    ∧ get_initial_Km t data
        = (if get_initial_bias data
              < (colMeans data).getD (kmIdxMax t data + kmIdxHalf t data) 0
           then (colMeans data).getD (kmIdxMax t data + kmIdxHalf t data) 0
                  - get_initial_bias data
           else (colMeans data).getD (kmIdxMax t data + kmIdxHalf t data) 0)
    ∧ (get_initial_bias data
          < (colMeans data).getD (kmIdxMax t data + kmIdxHalf t data) 0
        → 0 ≤ get_initial_Km t data) := by
  have hvlen : (get_v t data).length = numCols data := get_v_length t data
  have hcols : 0 < numCols data := by
    cases data with
    | nil => exact absurd rfl hne
    | cons r0 rest =>
        have h0 : r0.length = t.length := halign r0 (List.mem_cons_self r0 rest)
        have ht : 0 < t.length := List.length_pos.mpr htne
        have hc : numCols (r0 :: rest) = t.length := by simpa [numCols] using h0
        rw [hc]
        exact ht
  have hvne : get_v t data ≠ [] := by
    apply List.length_pos.mp
    rw [hvlen]
    exact hcols
  have himax : kmIdxMax t data < (get_v t data).length := idxOfMax_lt_length hvne
  have hwlen : (((get_v t data).drop (kmIdxMax t data)).map
      (fun x => |x - listMax (get_v t data) / 2|)).length
        = (get_v t data).length - kmIdxMax t data := by
    rw [List.length_map, List.length_drop]
  have hwne : ((get_v t data).drop (kmIdxMax t data)).map
      (fun x => |x - listMax (get_v t data) / 2|) ≠ [] := by
    apply List.length_pos.mp
    rw [hwlen]
    omega
  have hhalf : kmIdxHalf t data
      < (((get_v t data).drop (kmIdxMax t data)).map
          (fun x => |x - listMax (get_v t data) / 2|)).length :=
    argmin_lt_length hwne
  have hsum : kmIdxMax t data + kmIdxHalf t data < (get_v t data).length := by
    rw [hwlen] at hhalf
    omega
  have hwgetD : ∀ k, k < (((get_v t data).drop (kmIdxMax t data)).map
      (fun x => |x - listMax (get_v t data) / 2|)).length →
      (((get_v t data).drop (kmIdxMax t data)).map
        (fun x => |x - listMax (get_v t data) / 2|)).getD k 0
        = |(get_v t data).getD (kmIdxMax t data + k) 0
            - listMax (get_v t data) / 2| := by
    intro k hk
    rw [List.getD_eq_getElem _ _ hk, List.getElem_map, List.getElem_drop]
    have hik : kmIdxMax t data + k < (get_v t data).length := by
      rw [hwlen] at hk
      omega
    rw [List.getD_eq_getElem _ _ hik]
  refine ⟨⟨himax, getD_idxOfMax hvne, fun k hk => getD_lt_idxOfMax hk⟩,
    ⟨hsum, ?_⟩, ?_, ?_⟩
  · intro k hk1 hk2
    have hk3 : k - kmIdxMax t data
        < (((get_v t data).drop (kmIdxMax t data)).map
            (fun x => |x - listMax (get_v t data) / 2|)).length := by
      rw [hwlen]
      omega
    have he1 := hwgetD (kmIdxHalf t data) hhalf
    have he2 := hwgetD (k - kmIdxMax t data) hk3
    have hkk : kmIdxMax t data + (k - kmIdxMax t data) = k := by omega
    rw [hkk] at he2
    rw [← he1, ← he2]
    simp only [kmIdxHalf]
    rw [getD_argmin hwne]
    apply listMin_le
    rw [List.getD_eq_getElem _ _ hk3]
    exact List.getElem_mem hk3
  · simp only [get_initial_Km, gt_iff_lt]
  · intro h
    have hkm : get_initial_Km t data
        = (colMeans data).getD (kmIdxMax t data + kmIdxHalf t data) 0
            - get_initial_bias data := by
      simp only [get_initial_Km, gt_iff_lt]
      rw [if_pos h]
    rw [hkm]
    exact sub_nonneg.mpr (le_of_lt h)

/-- C4 witness at the spec scenario. -/
theorem get_initial_Km_spec_witness :
    kmIdxMax exT exData < (get_v exT exData).length
    ∧ (get_v exT exData).getD (kmIdxMax exT exData) 0 = listMax (get_v exT exData)
    ∧ kmIdxMax exT exData + kmIdxHalf exT exData < (get_v exT exData).length
    ∧ get_initial_Km exT exData
        = (if get_initial_bias exData
              < (colMeans exData).getD (kmIdxMax exT exData + kmIdxHalf exT exData) 0
           then (colMeans exData).getD (kmIdxMax exT exData + kmIdxHalf exT exData) 0
                  - get_initial_bias exData
           else (colMeans exData).getD (kmIdxMax exT exData + kmIdxHalf exT exData) 0) :=
  ⟨(get_initial_Km_spec exT exData (by decide) (by decide) (by decide)).1.1,
   (get_initial_Km_spec exT exData (by decide) (by decide) (by decide)).1.2.1,
   (get_initial_Km_spec exT exData (by decide) (by decide) (by decide)).2.1.1,
   (get_initial_Km_spec exT exData (by decide) (by decide) (by decide)).2.2.1⟩

/-- C7: `get_table_data` produces one column per fit result over the fixed
ordered row set `[S0, bias, vmax, Km, a]`; a missing parameter yields the
sentinel dash marker, every present parameter except `vmax` and `a` is
passed through the absorbance-to-concentration conversion, every present
value is rounded to three decimals, and the single result
`{S0: 1.0, vmax: 5.0}` yields the column `[40.323, -, 5.0, -, -]`. -/
theorem get_table_data_spec :
    (∀ results : List (String × FitResult),
        (get_table_data results).2.1 = results.map Prod.fst
        ∧ (get_table_data results).1
            = (results.map (fun kv => tableRows.map (cellFor kv.2))).transpose
        ∧ (get_table_data results).2.2 = tableRowLabels)
    ∧ (∀ (item : FitResult) (key : String),
        item.params.lookup key = none → cellFor item key = Cell.dash)
    ∧ (∀ (item : FitResult) (key : String) (v : ℚ),
        item.params.lookup key = some v → key ≠ "vmax" → key ≠ "a" →
        cellFor item key = Cell.num (round3 (convert_to_conc v)))
    ∧ (∀ (item : FitResult) (v : ℚ), item.params.lookup "vmax" = some v →
        cellFor item "vmax" = Cell.num (round3 v))
    ∧ (∀ (item : FitResult) (v : ℚ), item.params.lookup "a" = some v →
        cellFor item "a" = Cell.num (round3 v))
    ∧ get_table_data [("fit1", exFit)]
        = ([[Cell.num (40323 / 1000)], [Cell.dash], [Cell.num 5],
            [Cell.dash], [Cell.dash]],
           ["fit1"], tableRowLabels) := by
  refine ⟨fun results => ⟨rfl, rfl, rfl⟩, ?_, ?_, ?_, ?_, ?_⟩
  · intro item key h
    simp only [cellFor, h]
  · intro item key v h hv ha
    simp only [cellFor, h]
    rw [if_pos (not_or.mpr ⟨hv, ha⟩)]
  · intro item v h
    simp only [cellFor, h]
    rw [if_neg]
    intro hcon
    exact hcon (Or.inl trivial)
  · intro item v h
    simp only [cellFor, h]
    rw [if_neg]
    intro hcon
    exact hcon (Or.inr trivial)

  · have hS0 : cellFor exFit "S0" = Cell.num (40323 / 1000) := by
      have hl : exFit.params.lookup "S0" = some 1 := rfl
      simp only [cellFor, hl]
      rw [if_pos (by decide)]
      have hx : convert_to_conc 1 = 1250 / 31 := by
        rw [convert_to_conc]
        norm_num
      rw [hx, round3]
      have hf : round ((1250 : ℚ) / 31 * 1000) = 40323 := by
        rw [round_eq, Int.floor_eq_iff]
        norm_num
      rw [hf]
      norm_num
    have hvm : cellFor exFit "vmax" = Cell.num 5 := by
      have hl : exFit.params.lookup "vmax" = some 5 := rfl
      simp only [cellFor, hl]
      rw [if_neg (by decide)]
      rw [round3]
      norm_num
    have htab : tableRows.map (cellFor exFit)
        = [Cell.num (40323 / 1000), Cell.dash, Cell.num 5, Cell.dash, Cell.dash] := by
      have hbias : cellFor exFit "bias" = Cell.dash := rfl
      have hKm : cellFor exFit "Km" = Cell.dash := rfl
      have ha : cellFor exFit "a" = Cell.dash := rfl
      simp only [tableRows, List.map_cons, List.map_nil]
      rw [hS0, hvm, hbias, hKm, ha]
    simp only [get_table_data, List.map_cons, List.map_nil]
    rw [htab]
    rfl

/-- C7 witness: the dash, conversion, and pass-through rules at the
concrete fit result of the spec scenario. -/
theorem get_table_data_spec_witness :
    cellFor exFit "bias" = Cell.dash
    ∧ cellFor exFit "S0" = Cell.num (round3 (convert_to_conc 1))
    ∧ cellFor exFit "vmax" = Cell.num (round3 5) :=
  ⟨get_table_data_spec.2.1 exFit "bias" rfl,
   get_table_data_spec.2.2.1 exFit "S0" 1 rfl (by decide) (by decide),
   get_table_data_spec.2.2.2.1 exFit 5 rfl⟩

end Modeler

namespace EnzymeMLDocJSON

lemma collectData_skip (species : String) (entries : List SpeciesEntry)
    (h : ∀ e ∈ entries, e.species ≠ species) :
    collectData species entries = ([], []) := by
  rw [collectData]
  have hgen : ∀ (es : List SpeciesEntry), (∀ e ∈ es, e.species ≠ species) →
      ∀ acc : List ℚ × List (List ℚ),
        es.foldl (fun acc reactant =>
          if reactant.species = species then
            reactant.replicates.foldl
              (fun acc rep => (rep.time, acc.2 ++ [rep.data])) acc
          else acc) acc = acc := by
    intro es
    induction es with
    | nil => intro _ acc; rfl
    | cons e rest ih =>
        intro hes acc
        rw [List.foldl_cons, if_neg (hes e (List.mem_cons_self e rest))]
        exact ih (fun x hx => hes x (List.mem_cons_of_mem e hx)) acc
  exact hgen entries h ([], [])

/-- C6 counterexample: in `exDoc` the pair (`r2`, `s1`) is absent — the
reaction `r2` exists but lists no species in any role — yet `getData`
succeeds with empty arrays instead of failing with a not-found error. -/
theorem getData_silent_on_absent_pair :
    exReaction2.educts = [] ∧ exReaction2.products = []
    ∧ exReaction2.modifiers = []
    ∧ exDoc.reactionDic.lookup "r2" = some exReaction2
    ∧ getData exDoc "r2" "s1" = Except.ok ([], []) :=
  ⟨rfl, rfl, rfl, rfl, rfl⟩

/-- C6 amended: `getData` fails — with the key-lookup error `KeyError`,
not a dedicated not-found error — when the reaction id is absent from the
reaction dictionary, or when the species id is absent from the type
dictionary; but when both lookups succeed and the species is merely not
listed under the reaction's recorded role, it silently returns empty
time and data arrays instead of failing. -/
theorem getData_error_behavior (doc : Doc) (reaction species : String) :
    (doc.reactionDic.lookup reaction = none →
        getData doc reaction species = Except.error PyError.keyError)
    ∧ (∀ r, doc.reactionDic.lookup reaction = some r →
        doc.typeDic.lookup species = none →
        getData doc reaction species = Except.error PyError.keyError)
    ∧ (∀ r role entries, doc.reactionDic.lookup reaction = some r →
        doc.typeDic.lookup species = some role →
        roleEntries r role = some entries →
        (∀ e ∈ entries, e.species ≠ species) →
        getData doc reaction species = Except.ok ([], [])) := by
  refine ⟨?_, ?_, ?_⟩
  · intro h
    simp only [getData, h]
  · intro r h1 h2
    simp only [getData, h1, h2]
  · intro r role entries h1 h2 h3 h4
    simp only [getData, h1, h2, h3]
    rw [collectData_skip species entries h4]

/-- C6 amended witness: a missing reaction id gives `KeyError`; a present
reaction that does not list the species gives silent empty success. -/
theorem getData_error_behavior_witness :
    getData exDoc "r3" "s1" = Except.error PyError.keyError
    ∧ getData exDoc "r2" "s1" = Except.ok ([], []) :=
  ⟨(getData_error_behavior exDoc "r3" "s1").1 rfl,
   (getData_error_behavior exDoc "r2" "s1").2.2 exReaction2 "educts" [] rfl rfl rfl
     (by intro e he; exact absurd he (List.not_mem_nil e))⟩

end EnzymeMLDocJSON
